import Mathlib

/-!
Verification of the core of the krill RPKI CA implementation:
the resource-entitlement provisioning model (`commons/src/api/provisioning.rs`)
and the event-sourced disk key store (`src/commons/eventsourcing/store.rs`),
shallowly embedded in Lean 4.
-/

namespace Krill

/-! ## Provisioning: resources

`AsResources` / `Ipv4Resources` / `Ipv6Resources` come from the external
`rpki` crate.  Per the spec they are each either an explicit block set or the
sentinel `inherit`; `as_blocks()` returns `none` exactly for `inherit`.
Block sets are modelled abstractly as finite sets of numbers. -/

inductive Resources where
  | inherit : Resources
  | blocks : Finset ℕ → Resources
deriving DecidableEq

def Resources.as_blocks : Resources → Option (Finset ℕ)
  | .inherit => none
  | .blocks b => some b

/-- Embeds `ResourceSet` (`commons/src/api/ca.rs`, referenced by contract): a triple
of resource legs, each possibly `inherit`. -/
structure ResourceSet where
  asn : Resources
  v4 : Resources
  v6 : Resources
deriving DecidableEq

def ResourceSet.new (asn v4 v6 : Resources) : ResourceSet := ⟨asn, v4, v6⟩

/-- Modelled from the spec: `validate_issued(child_blocks, policy=Refuse)` of
the external rpki crate errs exactly when the requested child blocks are not
contained in the parent blocks ("parent_blocks ⊇ req").  `true` here means the
validation succeeded (`is_err()` is false). -/
def validate_issued (parent child : Finset ℕ) : Bool := child ⊆ parent

/-- Embeds `RequestResourceLimit` (provisioning.rs): optional per-leg narrowing
request.  A present leg carries the requested block set. -/
structure RequestResourceLimit where
  asn : Option (Finset ℕ)
  v4 : Option (Finset ℕ)
  v6 : Option (Finset ℕ)
deriving DecidableEq

def RequestResourceLimit.new : RequestResourceLimit := ⟨none, none, none⟩

def RequestResourceLimit.is_empty (l : RequestResourceLimit) : Bool :=
  l.asn = none ∧ l.v4 = none ∧ l.v6 = none

/-- One leg of `RequestResourceLimit::resolve` (provisioning.rs lines
204-226, repeated verbatim for v4 and v6): absent limit keeps the parent leg;
a present limit against an `inherit` parent leg aborts the whole resolve
(early `return None`); a present limit against concrete parent blocks aborts
when `validate_issued` rejects it (overclaim) and otherwise yields the
requested blocks (`asn.clone()`). -/
def resolveLeg (limitLeg : Option (Finset ℕ)) (parentLeg : Resources) :
    Option Resources :=
  match limitLeg with
  | none => some parentLeg
  | some req =>
    match parentLeg.as_blocks with
    | none => none
    | some parent_blocks =>
      if validate_issued parent_blocks req then some (.blocks req) else none

/-- Embeds `RequestResourceLimit::resolve` (provisioning.rs lines 203-277): the three
legs in source order, each an instance of the repeated match block embedded as
`resolveLeg`; the Rust early `return None` is the `Option` bind. -/
def RequestResourceLimit.resolve (l : RequestResourceLimit)
    (set : ResourceSet) : Option ResourceSet := do
  let asn ← resolveLeg l.asn set.asn
  let v4 ← resolveLeg l.v4 set.v4
  let v6 ← resolveLeg l.v6 set.v6
  pure (ResourceSet.new asn v4 v6)

/-! ## Provisioning: value types

`Csr` and `Cert` are external opaque byte-canonical objects (spec §1): each
has semantic content and a canonical captured byte encoding; distinct DER
encodings of the same semantics are possible.  Modelled from the spec. -/

/-- Modelled from the spec: an opaque CSR with a `to_captured` byte
projection; `content` stands for its semantics. -/
structure Csr where
  content : ℕ
  captured : List ℕ
deriving DecidableEq

/-- Modelled from the spec: an opaque certificate with a `to_captured` byte
projection. -/
structure Cert where
  content : ℕ
  captured : List ℕ
deriving DecidableEq

/-- Embeds `SigningCert` (provisioning.rs lines 94-98). -/
structure SigningCert where
  uri : String
  cert : Cert

/-- Embeds `impl PartialEq for SigningCert` (provisioning.rs lines 110-115): URI
equality plus captured-bytes equality of the certificates. -/
def signingCertEq (a b : SigningCert) : Bool :=
  a.uri = b.uri ∧ a.cert.captured = b.cert.captured

/-- Embeds `IssuanceRequest` (provisioning.rs lines 124-129). -/
structure IssuanceRequest where
  class_name : String
  limit : RequestResourceLimit
  csr : Csr

/-- Embeds `impl PartialEq for IssuanceRequest` (provisioning.rs lines 149-155):
class-name equality, limit value equality, captured-bytes equality of the
CSRs. -/
def issuanceRequestEq (a b : IssuanceRequest) : Bool :=
  a.class_name = b.class_name ∧ a.limit = b.limit ∧
    a.csr.captured = b.csr.captured

/-! ## Event-sourcing store: state model

`DiskKeyStore` (store.rs) persists JSON files under a root directory, one
subdirectory per aggregate handle.  A slot on disk is either absent, present
and parseable for its target type, or present but unparseable.  Handles and
keys are strings; payload types are parameters. -/

/-- A file that is present on disk: parses to a value, or is corrupt. -/
inductive Slot (α : Type) where
  | parsed : α → Slot α
  | corrupt : Slot α
deriving DecidableEq

/-- Embeds `StoredValueInfo` (store.rs lines 23-40).  The `last_update: Time` field
is omitted: wall-clock time is outside the model and no claim mentions it.
The default is the all-zero record. -/
structure StoredValueInfo where
  snapshot_version : ℕ
  last_event : ℕ
  last_command : ℕ
deriving DecidableEq

def StoredValueInfo.default : StoredValueInfo := ⟨0, 0, 0⟩

/-- Embeds `KeyStoreVersion` (store.rs lines 42-46). -/
inductive KeyStoreVersion where
  | Pre0_6 : KeyStoreVersion
  | V0_6 : KeyStoreVersion
deriving DecidableEq

/-- Embeds `KeyStoreError` (store.rs lines 165-193).  The payloads of `IoError` and
`JsonError` are dropped; `KeyExists`/`KeyUnknown` carry the key's file name
(`key.to_string_lossy()`). -/
inductive KeyStoreError where
  | IoError : KeyStoreError
  | JsonError : KeyStoreError
  | KeyExists : String → KeyStoreError
  | KeyUnknown : String → KeyStoreError
  | InitError : KeyStoreError
  | NoHistory : String → KeyStoreError
  | NotInitialised : KeyStoreError
  | CommandNotFound : KeyStoreError
  | CommandOffSetError : KeyStoreError
deriving DecidableEq

/-- Keys within one aggregate directory (`key_for_info`, `key_for_snapshot`,
`key_for_event`, `key_for_command`, store.rs lines 250-264). -/
inductive Key where
  | info : Key
  | snapshot : Key
  | event : ℕ → Key
  | command : ℕ → Key
deriving DecidableEq

/-- The file name of a key, as produced by `key_for_*` (store.rs 250-264). -/
def Key.name : Key → String
  | .info => "info.json"
  | .snapshot => "snapshot.json"
  | .event v => "delta-" ++ toString v ++ ".json"
  | .command s => "command-" ++ toString s ++ ".json"

def key_for_info : Key := .info
def key_for_snapshot : Key := .snapshot
def key_for_event (version : ℕ) : Key := .event version
def key_for_command (seq : ℕ) : Key := .command seq

/-- Association-list lookup (first match). -/
def getAssoc {κ β : Type} [DecidableEq κ] :
    List (κ × β) → κ → Option β
  | [], _ => none
  | (k', b) :: t, k => if k' = k then some b else getAssoc t k

/-- Association-list update: overwrite the binding of `k`, or append it. -/
def setAssoc {κ β : Type} [DecidableEq κ] :
    List (κ × β) → κ → β → List (κ × β)
  | [], k, b => [(k, b)]
  | (k', b') :: t, k, b =>
    if k' = k then (k, b) :: t else (k', b') :: setAssoc t k b

/-- The on-disk content of one aggregate directory `<root>/<handle>/`:
`info.json`, `snapshot.json`, the `delta-<v>.json` event files and the
`command-<s>.json` command files. -/
structure AggDir (A Ev Cmd : Type) where
  info : Option (Slot StoredValueInfo)
  snapshot : Option (Slot A)
  events : List (ℕ × Slot Ev)
  commands : List (ℕ × Slot Cmd)

/-- The empty aggregate directory (no files). -/
def AggDir.empty (A Ev Cmd : Type) : AggDir A Ev Cmd := ⟨none, none, [], []⟩

/-- The on-disk state of a `DiskKeyStore` rooted at `dir`: whether the root
directory exists, the root-level `version` file, and the per-handle
aggregate directories. -/
structure DiskKeyStore (A Ev Cmd : Type) where
  root_exists : Bool
  version_file : Option (Slot KeyStoreVersion)
  dirs : List (String × AggDir A Ev Cmd)

variable {A Ev Cmd : Type}

/-- The directory for a handle; a missing directory reads as empty. -/
def dirFor (st : DiskKeyStore A Ev Cmd) (id : String) : AggDir A Ev Cmd :=
  (getAssoc st.dirs id).getD (AggDir.empty A Ev Cmd)

def infoSlot (st : DiskKeyStore A Ev Cmd) (id : String) :
    Option (Slot StoredValueInfo) := (dirFor st id).info

def snapshotSlot (st : DiskKeyStore A Ev Cmd) (id : String) :
    Option (Slot A) := (dirFor st id).snapshot

def eventSlot (st : DiskKeyStore A Ev Cmd) (id : String) (v : ℕ) :
    Option (Slot Ev) := getAssoc (dirFor st id).events v

def commandSlot (st : DiskKeyStore A Ev Cmd) (id : String) (s : ℕ) :
    Option (Slot Cmd) := getAssoc (dirFor st id).commands s

/-- Embeds `DiskKeyStore::has_key` (store.rs lines 285-287): the key's file exists,
whether or not its content parses. -/
def hasKey (st : DiskKeyStore A Ev Cmd) (id : String) : Key → Bool
  | .info => (infoSlot st id).isSome
  | .snapshot => (snapshotSlot st id).isSome
  | .event v => (eventSlot st id v).isSome
  | .command s => (commandSlot st id s).isSome

/-! ## Store: reads -/

/-- Embeds `DiskKeyStore::get` (store.rs lines 321-348), the lenient generic read,
applied to a slot: absent is `Ok(None)`; present but unparseable is
`Ok(None)` with a warning logged; present and parseable is `Ok(Some)`. -/
def genericGet {α : Type} : Option (Slot α) → Except KeyStoreError (Option α)
  | none => .ok none
  | some .corrupt => .ok none
  | some (.parsed a) => .ok (some a)

/-- Embeds `KeyStore::get_info` (store.rs lines 72-76): the lenient `get` of
`info.json`, defaulted when it yields `None`.  In the model the lenient read
never errs, so the result is total. -/
def get_info (st : DiskKeyStore A Ev Cmd) (id : String) : StoredValueInfo :=
  match genericGet (infoSlot st id) with
  | .ok (some i) => i
  | _ => StoredValueInfo.default

/-- Embeds `DiskKeyStore::get_event` (store.rs lines 361-381), the strict read:
absent is `Ok(None)` ("no more events"); present but unparseable is
`Err(JsonError)`. -/
def get_event (st : DiskKeyStore A Ev Cmd) (id : String) (version : ℕ) :
    Except KeyStoreError (Option Ev) :=
  match eventSlot st id version with
  | none => .ok none
  | some .corrupt => .error .JsonError
  | some (.parsed e) => .ok (some e)

/-- Embeds `DiskKeyStore::get_version` (store.rs lines 220-240): `NotInitialised`
when the root directory is missing; `Pre0_6` when the `version` file is
absent; strict JSON parse otherwise. -/
def get_version (st : DiskKeyStore A Ev Cmd) :
    Except KeyStoreError KeyStoreVersion :=
  if st.root_exists = false then .error .NotInitialised
  else
    match st.version_file with
    | none => .ok .Pre0_6
    | some .corrupt => .error .JsonError
    | some (.parsed v) => .ok v

/-! ## Store: writes -/

/-- Update one handle's directory in place (creating it when absent, as
`file::create_file_with_path` creates the missing directories; per the spec
it also creates the root). -/
def writeDir (st : DiskKeyStore A Ev Cmd) (id : String)
    (f : AggDir A Ev Cmd → AggDir A Ev Cmd) : DiskKeyStore A Ev Cmd :=
  { st with
    root_exists := true
    dirs := setAssoc st.dirs id (f (dirFor st id)) }

/-- Embeds `DiskKeyStore::store` (store.rs lines 309-319) specialised to an event
slot: serialize and (over)write the file. -/
def writeEvent (st : DiskKeyStore A Ev Cmd) (id : String) (v : ℕ) (e : Ev) :
    DiskKeyStore A Ev Cmd :=
  writeDir st id fun d => { d with events := setAssoc d.events v (.parsed e) }

/-- Embeds `DiskKeyStore::store` specialised to a command slot. -/
def writeCommand (st : DiskKeyStore A Ev Cmd) (id : String) (s : ℕ)
    (c : Cmd) : DiskKeyStore A Ev Cmd :=
  writeDir st id fun d =>
    { d with commands := setAssoc d.commands s (.parsed c) }

/-- Embeds `DiskKeyStore::set_version` (store.rs lines 242-248): create the
`version` file (with its directories, per the spec's contract for
`file::create_file_with_path`), overwriting any prior value. -/
def set_version (st : DiskKeyStore A Ev Cmd) (v : KeyStoreVersion) :
    DiskKeyStore A Ev Cmd :=
  { st with root_exists := true, version_file := some (.parsed v) }

/-- The `handle()`/`version()` accessors of the `Event` trait
(interface consumed by the store, spec §6.3). -/
structure EventOps (Ev : Type) where
  handle : Ev → String
  version : Ev → ℕ

/-- The `handle()`/`sequence()` accessors of `StoredCommand`
(interface consumed by the store). -/
structure CommandOps (Cmd : Type) where
  handle : Cmd → String
  sequence : Cmd → ℕ

/-- Embeds `DiskKeyStore::store_event` (store.rs lines 383-393): refuse with
`KeyExists` when the event's slot already holds a file, else write via
`store`.  The returned store is the disk state after the call: unchanged on
error. -/
def store_event (ops : EventOps Ev) (st : DiskKeyStore A Ev Cmd) (e : Ev) :
    DiskKeyStore A Ev Cmd × Option KeyStoreError :=
  let id := ops.handle e
  let key := key_for_event (ops.version e)
  if hasKey st id key then (st, some (.KeyExists key.name))
  else (writeEvent st id (ops.version e) e, none)

/-- Embeds `DiskKeyStore::store_command` (store.rs lines 395-408): the same
write-once rule on the command's sequence slot. -/
def store_command (ops : CommandOps Cmd) (st : DiskKeyStore A Ev Cmd)
    (c : Cmd) : DiskKeyStore A Ev Cmd × Option KeyStoreError :=
  let id := ops.handle c
  let key := key_for_command (ops.sequence c)
  if hasKey st id key then (st, some (.KeyExists key.name))
  else (writeCommand st id (ops.sequence c) c, none)

/-! ## Store: aggregate reconstruction

The `Aggregate` trait is not part of the embedded sources; it is modelled
from the spec (§3.2, §6.3): `init(InitEvent) -> Result<Self>` (`none` models
a rejected init), `apply` increments `version` by one, replay fetches the
event at the aggregate's current version.  The increment law is what makes
the source's `while let` replay loop terminate, so it is carried as a field.
The store parses `delta-0.json` as `V::InitEvent` and later deltas as
`V::Event`; the model uses one event type for both. -/

structure AggregateOps (A Ev : Type) where
  init : Ev → Option A
  apply : A → Ev → A
  version : A → ℕ
  apply_version : ∀ a e, version (apply a e) = version a + 1

/-- An upper bound on the event versions present in a directory. -/
def maxEventKey (d : AggDir A Ev Cmd) : ℕ :=
  d.events.foldr (fun p m => max p.1 m) 0

/-- The loop body of `DiskKeyStore::update_aggregate` (store.rs lines
483-492): fetch the event at the aggregate's current version and apply it,
until `get_event` yields `None`; a strict-read failure propagates.  `fuel`
bounds the iteration; `update_aggregate` supplies enough fuel for the loop
to have reached its `None` exit (proved below). -/
def replay (ops : AggregateOps A Ev) (st : DiskKeyStore A Ev Cmd)
    (id : String) : ℕ → A → Except KeyStoreError A
  | 0, a => .ok a
  | fuel + 1, a =>
    match get_event st id (ops.version a) with
    | .error err => .error err
    | .ok none => .ok a
    | .ok (some e) => replay ops st id fuel (ops.apply a e)

/-- Embeds `DiskKeyStore::update_aggregate` (store.rs lines 483-492). -/
def update_aggregate (ops : AggregateOps A Ev) (st : DiskKeyStore A Ev Cmd)
    (id : String) (a : A) : Except KeyStoreError A :=
  replay ops st id (maxEventKey (dirFor st id) + 1) a

/-- The `aggregate_opt` computation of `DiskKeyStore::get_aggregate`
(store.rs lines 414-421): lenient read of the snapshot; on `None` fall back
to the strict read of event 0 and `Aggregate::init` (a rejected init is
`InitError`); on `None` again the aggregate is absent. -/
def aggregateBase (ops : AggregateOps A Ev) (st : DiskKeyStore A Ev Cmd)
    (id : String) : Except KeyStoreError (Option A) :=
  match genericGet (snapshotSlot st id) with
  | .error err => .error err
  | .ok (some a) => .ok (some a)
  | .ok none =>
    match get_event st id 0 with
    | .error err => .error err
    | .ok none => .ok none
    | .ok (some e0) =>
      match ops.init e0 with
      | none => .error .InitError
      | some a => .ok (some a)

/-- Embeds `DiskKeyStore::get_aggregate` (store.rs lines 410-430): the base, if
any, brought up to date by `update_aggregate`. -/
def get_aggregate (ops : AggregateOps A Ev) (st : DiskKeyStore A Ev Cmd)
    (id : String) : Except KeyStoreError (Option A) :=
  match aggregateBase ops st id with
  | .error err => .error err
  | .ok none => .ok none
  | .ok (some a) =>
    match update_aggregate ops st id a with
    | .error err => .error err
    | .ok r => .ok (some r)

/-! ## Store: command history -/

/-- Embeds `CommandHistoryCriteria` (commons/api, consumed by contract): an offset,
an optional row count, and the `should_include` filter on history records.
The `StoredCommand -> CommandHistoryRecord` projection is the `toRecord`
parameter of `command_history`. -/
structure CommandHistoryCriteria (Rec : Type) where
  offset : ℕ
  rows : Option ℕ
  should_include : Rec → Bool

/-- Embeds `CommandHistory` (commons/api): the returned page. -/
structure CommandHistory (Rec : Type) where
  offset : ℕ
  total : ℕ
  commands : List Rec
deriving DecidableEq

/-- One iteration of the `for seq in 1..=info.last_command` loop of
`KeyStore::command_history` (store.rs lines 129-139): the lenient `get` of
the command slot, `ok_or(CommandNotFound)`, projection to a record, filter.
`collectCommands st id conv crit n` covers `seq = 1..=n`. -/
def collectCommands (st : DiskKeyStore A Ev Cmd) (id : String)
    {Rec : Type} (conv : Cmd → Rec) (crit : CommandHistoryCriteria Rec) :
    ℕ → Except KeyStoreError (List Rec)
  | 0 => .ok []
  | n + 1 =>
    match collectCommands st id conv crit n with
    | .error err => .error err
    | .ok pre =>
      match genericGet (commandSlot st id (n + 1)) with
      | .error err => .error err
      | .ok none => .error .CommandNotFound
      | .ok (some c) =>
        if crit.should_include (conv c) then .ok (pre ++ [conv c])
        else .ok pre

/-- The `rows` truncation of `command_history` (store.rs lines 152-156):
`commands.split_off(rows)` discards the tail when `rows` is set and strictly
below the remaining count. -/
def truncateRows {Rec : Type} (l : List Rec) : Option ℕ → List Rec
  | none => l
  | some rows => if rows < l.length then l.take rows else l

/-- Embeds `KeyStore::command_history` (store.rs lines 121-159): collect the
records for `seq = 1..=last_command`, fail `CommandOffSetError` when
`offset >= total`, drop `offset` records, truncate to `rows`. -/
def command_history (st : DiskKeyStore A Ev Cmd) (id : String)
    {Rec : Type} (conv : Cmd → Rec) (crit : CommandHistoryCriteria Rec) :
    Except KeyStoreError (CommandHistory Rec) :=
  match collectCommands st id conv crit (get_info st id).last_command with
  | .error err => .error err
  | .ok commands =>
    if commands.length ≤ crit.offset then .error .CommandOffSetError
    else
      .ok ⟨crit.offset, commands.length,
        truncateRows (commands.drop crit.offset) crit.rows⟩

/-- The records of commands `1..=n` that pass the filter, when sequence `s`
holds the parsed command `cmds s`: the filtered count before pagination. -/
def filteredRecords {Rec : Type} (conv : Cmd → Rec)
    (crit : CommandHistoryCriteria Rec) (cmds : ℕ → Cmd) (n : ℕ) :
    List Rec :=
  ((List.range n).map fun i => conv (cmds (i + 1))).filter
    crit.should_include

/-! ## Store: aggregate enumeration

`DiskKeyStore::aggregates` (store.rs lines 293-307) only reads the root
directory listing, so it is modelled over that listing alone.  `read_dir`
itself may fail (`none` listing); each yielded entry result is either an
`Err` (`ioErr`) or an entry with a name and a directory flag.
`Handle::from_path_unsafe` (not in the embedded sources) is modelled from
the spec: a handle is the directory's path component, i.e. its name. -/

inductive DirEntryResult where
  | ioErr : DirEntryResult
  | entry : String → Bool → DirEntryResult
deriving DecidableEq

/-- Embeds `DiskKeyStore::aggregates`: an unreadable root yields the empty list;
a directory entry contributes its name as a handle; a non-directory entry is
skipped; an `Err` entry result hits `d.unwrap()` and panics, modelled as the
overall result `none`. -/
def aggregates (root_listing : Option (List DirEntryResult)) :
    Option (List String) :=
  match root_listing with
  | none => some []
  | some es =>
    es.foldl
      (fun acc e =>
        match acc, e with
        | none, _ => none
        | some _, .ioErr => none
        | some l, .entry n true => some (l ++ [n])
        | some l, .entry _ false => some l)
      (some [])

/-! ## Concrete instances

A toy aggregate obeying the spec's `Aggregate` contract: its state is just
its version, `init` accepts any init event at version 0, `apply` increments
the version.  Used to evaluate the store on concrete inputs. -/

def opsN : AggregateOps ℕ ℕ where
  init := fun _ => some 0
  apply := fun a _ => a + 1
  version := fun a => a
  apply_version := fun _ _ => rfl

/-- A toy aggregate whose `init` rejects every init event. -/
def opsRej : AggregateOps ℕ ℕ where
  init := fun _ => none
  apply := fun a _ => a + 1
  version := fun a => a
  apply_version := fun _ _ => rfl

/-- Scenario S2/S3 store: handle `"ca-1"` with parsed events at versions
0, 1, 2 and a corrupt `snapshot.json`. -/
def stS3 : DiskKeyStore ℕ ℕ ℕ :=
  ⟨true, none,
    [("ca-1", ⟨none, some .corrupt,
      [(0, .parsed 100), (1, .parsed 101), (2, .parsed 102)], []⟩)]⟩

/-- A store whose only content is a parsed init event for `"ca-1"`. -/
def stRej : DiskKeyStore ℕ ℕ ℕ :=
  ⟨true, none, [("ca-1", ⟨none, none, [(0, .parsed 100)], []⟩)]⟩

/-- A store with a corrupt `info.json` under `"h1"` and, under `"h2"`, an
info record announcing one command whose `command-1.json` is corrupt. -/
def stC5 : DiskKeyStore ℕ ℕ ℕ :=
  ⟨true, none,
    [("h1", ⟨some .corrupt, none, [], []⟩),
     ("h2", ⟨some (.parsed ⟨0, 0, 1⟩), none, [], [(1, .corrupt)]⟩)]⟩

/-- Scenario S4 store: `last_command = 5` with parsed commands 1..5. -/
def stS4 : DiskKeyStore ℕ ℕ ℕ :=
  ⟨true, none,
    [("ca-1", ⟨some (.parsed ⟨0, 0, 5⟩), none, [],
      [(1, .parsed 1), (2, .parsed 2), (3, .parsed 3),
       (4, .parsed 4), (5, .parsed 5)]⟩)]⟩

/-- Identity record projection for commands that are bare numbers. -/
def idConv : ℕ → ℕ := fun c => c

/-- The sequence-to-command map of `stS4`. -/
def cmdsS4 : ℕ → ℕ := fun seq => seq

def critAll : CommandHistoryCriteria ℕ := ⟨0, none, fun _ => true⟩

def critOffset2Rows2 : CommandHistoryCriteria ℕ := ⟨2, some 2, fun _ => true⟩

def critOffset10 : CommandHistoryCriteria ℕ := ⟨10, none, fun _ => true⟩

/-- An initialised but empty store root. -/
def stRoot : DiskKeyStore ℕ ℕ ℕ := ⟨true, none, []⟩

/-- A store whose root directory does not exist. -/
def stNoRoot : DiskKeyStore ℕ ℕ ℕ := ⟨false, none, []⟩

/-- Event accessors for events that are bare numbers: the number is the
event's version, the handle is fixed. -/
def eopsN : EventOps ℕ := ⟨fun _ => "ca-1", fun e => e⟩

def copsN : CommandOps ℕ := ⟨fun _ => "ca-1", fun c => c⟩

/-- Stores for the snapshot-independence claim: same parsed snapshot at
version 1 and same event files at versions ≥ 1, but `stC10b` additionally
has a corrupt `delta-0.json`-independent difference in `info.json`. -/
def stC10a : DiskKeyStore ℕ ℕ ℕ :=
  ⟨true, none,
    [("h", ⟨none, some (.parsed 1), [(0, .corrupt), (1, .parsed 9)], []⟩)]⟩

def stC10b : DiskKeyStore ℕ ℕ ℕ :=
  ⟨true, none,
    [("h", ⟨some .corrupt, some (.parsed 1),
      [(0, .corrupt), (1, .parsed 9)], []⟩)]⟩

/-- Two CSRs with the same semantic content but different canonical bytes. -/
def csrA : Csr := ⟨5, [1]⟩

def csrB : Csr := ⟨5, [2]⟩

def reqA : IssuanceRequest := ⟨"all", RequestResourceLimit.new, csrA⟩

def reqB : IssuanceRequest := ⟨"all", RequestResourceLimit.new, csrB⟩

/-- A parent resource set with an inherit leg, for the identity witness. -/
def pInherit : ResourceSet := ⟨.inherit, .blocks {1}, .inherit⟩

/-! ## Association-list lemmas -/

theorem getAssoc_setAssoc_self {κ β : Type} [DecidableEq κ]
    (l : List (κ × β)) (k : κ) (b : β) :
    getAssoc (setAssoc l k b) k = some b := by
  induction l with
  | nil => simp [setAssoc, getAssoc]
  | cons p t ih =>
    obtain ⟨k', b'⟩ := p
    by_cases h : k' = k
    · simp [setAssoc, getAssoc, h]
    · simp [setAssoc, getAssoc, h, ih]

theorem getAssoc_le_foldr_max {β : Type} (l : List (ℕ × β)) (k : ℕ) (b : β)
    (h : getAssoc l k = some b) :
    k ≤ l.foldr (fun p m => max p.1 m) 0 := by
  induction l with
  | nil => simp [getAssoc] at h
  | cons p t ih =>
    obtain ⟨k', b'⟩ := p
    by_cases hk : k' = k
    · subst hk
      simp only [List.foldr]
      exact le_max_left _ _
    · simp only [getAssoc, hk, if_false] at h
      exact le_trans (ih h) (le_max_right _ _)

theorem dirFor_writeDir (st : DiskKeyStore A Ev Cmd) (id : String)
    (f : AggDir A Ev Cmd → AggDir A Ev Cmd) :
    dirFor (writeDir st id f) id = f (dirFor st id) := by
  simp [dirFor, writeDir, getAssoc_setAssoc_self]

theorem eventSlot_writeEvent_self (st : DiskKeyStore A Ev Cmd) (id : String)
    (v : ℕ) (e : Ev) :
    eventSlot (writeEvent st id v e) id v = some (.parsed e) := by
  simp [eventSlot, writeEvent, dirFor_writeDir, getAssoc_setAssoc_self]

theorem commandSlot_writeCommand_self (st : DiskKeyStore A Ev Cmd)
    (id : String) (s : ℕ) (c : Cmd) :
    commandSlot (writeCommand st id s c) id s = some (.parsed c) := by
  simp [commandSlot, writeCommand, dirFor_writeDir, getAssoc_setAssoc_self]

/-! ## Claim theorems: provisioning -/

/-- Claim C1: `resolve(limit, parent)` processes the three legs (asn, v4,
v6) independently — the whole resolve is `some` exactly when every leg
resolves, an absent limit leg keeps the parent's leg, a present limit leg
fails the whole resolve when the parent leg is inherit or does not contain
the requested blocks, and otherwise yields exactly the requested blocks. -/
theorem resolve_processes_legs_independently (l : RequestResourceLimit)
    (p : ResourceSet) :
    (l.resolve p =
      match resolveLeg l.asn p.asn, resolveLeg l.v4 p.v4,
          resolveLeg l.v6 p.v6 with
      | some asn, some v4, some v6 => some (ResourceSet.new asn v4 v6)
      | _, _, _ => none) ∧
    (∀ leg : Resources, resolveLeg none leg = some leg) ∧
    (∀ req : Finset ℕ, resolveLeg (some req) .inherit = none) ∧
    (∀ req pb : Finset ℕ, resolveLeg (some req) (.blocks pb) =
      if req ⊆ pb then some (.blocks req) else none) := by
  refine ⟨?_, fun leg => rfl, fun req => rfl, fun req pb => ?_⟩
  · unfold RequestResourceLimit.resolve
    cases resolveLeg l.asn p.asn <;> cases resolveLeg l.v4 p.v4 <;>
      cases resolveLeg l.v6 p.v6 <;> rfl
  · simp [resolveLeg, Resources.as_blocks, validate_issued]

/-- Claim C7: resolving with the empty limit (all three legs absent)
returns the parent set unchanged, for concrete and inherit legs alike; the
empty limit never makes `resolve` return `None`. -/
theorem resolve_empty_limit_identity (l : RequestResourceLimit)
    (p : ResourceSet) (h : l.is_empty = true) :
    l.resolve p = some p := by
  have ha : l.asn = none ∧ l.v4 = none ∧ l.v6 = none := by
    simpa [RequestResourceLimit.is_empty] using h
  obtain ⟨h1, h2, h3⟩ := ha
  simp [RequestResourceLimit.resolve, resolveLeg, h1, h2, h3,
    ResourceSet.new]

theorem resolve_empty_limit_identity_witness :
    RequestResourceLimit.new.is_empty = true ∧
    RequestResourceLimit.new.resolve pInherit = some pInherit :=
  ⟨rfl, resolve_empty_limit_identity RequestResourceLimit.new pInherit rfl⟩

/-- Claim C9: two `IssuanceRequest`s are equal iff their class names,
limits, and canonical CSR bytes agree, so CSRs with equal semantics but
different canonical bytes make the requests unequal; two `SigningCert`s are
equal iff their URIs and canonical certificate bytes agree. -/
theorem issuance_signing_equality_canonical_bytes (a b : IssuanceRequest)
    (c d : SigningCert) :
    (issuanceRequestEq a b = true ↔
      a.class_name = b.class_name ∧ a.limit = b.limit ∧
        a.csr.captured = b.csr.captured) ∧
    (a.csr.content = b.csr.content → a.csr.captured ≠ b.csr.captured →
      issuanceRequestEq a b = false) ∧
    (signingCertEq c d = true ↔
      c.uri = d.uri ∧ c.cert.captured = d.cert.captured) := by
  refine ⟨?_, ?_, ?_⟩
  · simp [issuanceRequestEq]
  · intro _ hne
    simp [issuanceRequestEq, hne]
  · simp [signingCertEq]

theorem issuance_signing_equality_canonical_bytes_witness :
    reqA.csr.content = reqB.csr.content ∧ issuanceRequestEq reqA reqB = false :=
  ⟨rfl,
    (issuance_signing_equality_canonical_bytes reqA reqB ⟨"u", ⟨1, [1]⟩⟩
      ⟨"u", ⟨1, [1]⟩⟩).2.1 rfl (by decide)⟩

/-! ## Claim theorems: version record -/

/-- Claim C6: `get_version` fails `NotInitialised` exactly when the root
directory is missing, returns `Pre0_6` when the root exists but the version
record is absent, returns the recorded version when it parses, and
`set_version` (over)writes the record so a subsequent `get_version` returns
the value just set. -/
theorem get_set_version_spec (st : DiskKeyStore A Ev Cmd)
    (v w : KeyStoreVersion) :
    (get_version st = .error .NotInitialised ↔ st.root_exists = false) ∧
    (st.root_exists = true → st.version_file = none →
      get_version st = .ok .Pre0_6) ∧
    (st.root_exists = true → st.version_file = some (.parsed v) →
      get_version st = .ok v) ∧
    get_version (set_version st w) = .ok w := by
  refine ⟨?_, ?_, ?_, rfl⟩
  · cases hr : st.root_exists
    · simp [get_version, hr]
    · simp only [get_version, hr]
      cases hv : st.version_file with
      | none => simp
      | some s => cases s <;> simp
  · intro hr hv
    simp [get_version, hr, hv]
  · intro hr hv
    simp [get_version, hr, hv]

theorem get_set_version_spec_witness :
    get_version stNoRoot = .error .NotInitialised ∧
    get_version stRoot = .ok .Pre0_6 ∧
    get_version (set_version stNoRoot .V0_6) = .ok .V0_6 :=
  ⟨(get_set_version_spec stNoRoot .Pre0_6 .Pre0_6).1.mpr rfl,
   (get_set_version_spec stRoot .Pre0_6 .Pre0_6).2.1 rfl rfl,
   (get_set_version_spec stNoRoot .Pre0_6 .V0_6).2.2.2⟩

/-! ## Claim theorems: write-once slots -/

/-- Claim C3: `store_event` on an already-occupied `(handle, version)` slot
returns `KeyExists` and leaves the store unchanged; on a free slot it writes
the event.  The same write-once rule holds for `store_command` on
`(handle, sequence)`. -/
theorem store_event_and_command_write_once (ops : EventOps Ev)
    (cops : CommandOps Cmd) (st : DiskKeyStore A Ev Cmd) (e : Ev) (c : Cmd) :
    (hasKey st (ops.handle e) (key_for_event (ops.version e)) = true →
      store_event ops st e =
        (st, some (.KeyExists (key_for_event (ops.version e)).name))) ∧
    (hasKey st (ops.handle e) (key_for_event (ops.version e)) = false →
      store_event ops st e =
          (writeEvent st (ops.handle e) (ops.version e) e, none) ∧
        eventSlot (store_event ops st e).1 (ops.handle e) (ops.version e) =
          some (.parsed e)) ∧
    (hasKey st (cops.handle c) (key_for_command (cops.sequence c)) = true →
      store_command cops st c =
        (st, some (.KeyExists (key_for_command (cops.sequence c)).name))) ∧
    (hasKey st (cops.handle c) (key_for_command (cops.sequence c)) = false →
      store_command cops st c =
          (writeCommand st (cops.handle c) (cops.sequence c) c, none) ∧
        commandSlot (store_command cops st c).1 (cops.handle c)
            (cops.sequence c) =
          some (.parsed c)) := by
  refine ⟨fun h => ?_, fun h => ⟨?_, ?_⟩, fun h => ?_, fun h => ⟨?_, ?_⟩⟩
  · simp [store_event, h]
  · simp [store_event, h]
  · simp [store_event, h, eventSlot_writeEvent_self]
  · simp [store_command, h]
  · simp [store_command, h]
  · simp [store_command, h, commandSlot_writeCommand_self]

theorem store_event_and_command_write_once_witness :
    (store_event eopsN stRoot 0 = (writeEvent stRoot "ca-1" 0 0, none) ∧
      eventSlot (store_event eopsN stRoot 0).1 "ca-1" 0 =
        some (.parsed 0)) ∧
    store_event eopsN stS3 1 =
      (stS3, some (.KeyExists (key_for_event 1).name)) :=
  ⟨(store_event_and_command_write_once eopsN copsN stRoot 0 0).2.1 rfl,
   (store_event_and_command_write_once eopsN copsN stS3 1 0).1 rfl⟩

/-! ## Claim theorems: aggregate enumeration -/

/-- Claim C8: evaluation of `aggregates` on concrete root listings.  An
unreadable root yields the empty list and a non-directory entry is skipped,
but an `Err` directory-entry result hits `d.unwrap()` and panics (modelled
as `none`) instead of being silently skipped, so `aggregates` is not total:
the claim holds only for listings whose entry results are all `Ok`. -/
theorem aggregates_entry_err_panics :
    aggregates (some [DirEntryResult.ioErr]) = none ∧
    aggregates none = some [] ∧
    aggregates (some [.entry "ca-1" true, .entry "version" false]) =
      some ["ca-1"] :=
  ⟨rfl, rfl, rfl⟩

/-! ## Replay lemmas -/

theorem eventSlot_none_of_max_lt (st : DiskKeyStore A Ev Cmd) (id : String)
    (v : ℕ) (h : maxEventKey (dirFor st id) < v) :
    eventSlot st id v = none := by
  cases he : eventSlot st id v with
  | none => rfl
  | some s =>
    unfold eventSlot at he
    have hle := getAssoc_le_foldr_max _ v s he
    unfold maxEventKey at h
    omega

theorem get_event_none_of_max_lt (st : DiskKeyStore A Ev Cmd) (id : String)
    (v : ℕ) (h : maxEventKey (dirFor st id) < v) :
    get_event st id v = (.ok none : Except KeyStoreError (Option Ev)) := by
  unfold get_event
  rw [eventSlot_none_of_max_lt st id v h]

theorem get_event_error_json (st : DiskKeyStore A Ev Cmd) (id : String)
    (v : ℕ) (err : KeyStoreError)
    (h : get_event st id v = (.error err : Except KeyStoreError (Option Ev))) :
    err = .JsonError := by
  unfold get_event at h
  cases hs : eventSlot st id v with
  | none => rw [hs] at h; exact Except.noConfusion h
  | some s =>
    cases s with
    | parsed e => rw [hs] at h; exact Except.noConfusion h
    | corrupt =>
      rw [hs] at h
      injection h with h'
      exact h'.symm

theorem replay_error_json (ops : AggregateOps A Ev)
    (st : DiskKeyStore A Ev Cmd) (id : String) :
    ∀ (fuel : ℕ) (a : A) (err : KeyStoreError),
      replay ops st id fuel a = .error err → err = .JsonError := by
  intro fuel
  induction fuel with
  | zero =>
    intro a err h
    exact Except.noConfusion h
  | succ n ih =>
    intro a err h
    unfold replay at h
    cases hg : get_event st id (ops.version a) with
    | error e =>
      rw [hg] at h
      injection h with h'
      exact h' ▸ get_event_error_json st id _ e hg
    | ok oe =>
      rw [hg] at h
      cases oe with
      | none => exact Except.noConfusion h
      | some e => exact ih _ _ h

theorem replay_fuel_eq (ops : AggregateOps A Ev)
    (st : DiskKeyStore A Ev Cmd) (id : String) :
    ∀ (f g : ℕ) (a : A),
      maxEventKey (dirFor st id) + 1 ≤ ops.version a + f →
      maxEventKey (dirFor st id) + 1 ≤ ops.version a + g →
      replay ops st id f a = replay ops st id g a := by
  intro f
  induction f with
  | zero =>
    intro g a hf _
    have hnone : get_event st id (ops.version a) =
        (.ok none : Except KeyStoreError (Option Ev)) :=
      get_event_none_of_max_lt st id _ (by omega)
    cases g with
    | zero => rfl
    | succ m =>
      unfold replay
      rw [hnone]
  | succ n ih =>
    intro g a hf hg
    cases g with
    | zero =>
      have hnone : get_event st id (ops.version a) =
          (.ok none : Except KeyStoreError (Option Ev)) :=
        get_event_none_of_max_lt st id _ (by omega)
      unfold replay
      rw [hnone]
    | succ m =>
      unfold replay
      cases hge : get_event st id (ops.version a) with
      | error e => rfl
      | ok oe =>
        cases oe with
        | none => rfl
        | some e =>
          have hv := ops.apply_version a e
          refine ih m (ops.apply a e) ?_ ?_
          · rw [hv]; omega
          · rw [hv]; omega

theorem replay_congr (ops : AggregateOps A Ev)
    (st st' : DiskKeyStore A Ev Cmd) (id : String) :
    ∀ (f : ℕ) (a : A),
      (∀ v, ops.version a ≤ v → eventSlot st' id v = eventSlot st id v) →
      replay ops st' id f a = replay ops st id f a := by
  intro f
  induction f with
  | zero => intro a _; rfl
  | succ n ih =>
    intro a hagree
    unfold replay
    have he : get_event st' id (ops.version a) =
        (get_event st id (ops.version a) :
          Except KeyStoreError (Option Ev)) := by
      unfold get_event
      rw [hagree _ (le_refl _)]
    rw [he]
    cases hge : get_event st id (ops.version a) with
    | error e => rfl
    | ok oe =>
      cases oe with
      | none => rfl
      | some e =>
        refine ih (ops.apply a e) ?_
        intro v hv
        refine hagree v ?_
        have := ops.apply_version a e
        omega

theorem replay_post (ops : AggregateOps A Ev)
    (st : DiskKeyStore A Ev Cmd) (id : String) :
    ∀ (fuel : ℕ) (a r : A),
      maxEventKey (dirFor st id) + 1 ≤ ops.version a + fuel →
      replay ops st id fuel a = .ok r →
      get_event st id (ops.version r) =
        (.ok none : Except KeyStoreError (Option Ev)) := by
  intro fuel
  induction fuel with
  | zero =>
    intro a r hb h
    have har : a = r := by
      have h' : (.ok a : Except KeyStoreError A) = .ok r := h
      injection h'
    subst har
    exact get_event_none_of_max_lt st id _ (by omega)
  | succ n ih =>
    intro a r hb h
    unfold replay at h
    cases hg : get_event st id (ops.version a) with
    | error e => rw [hg] at h; exact Except.noConfusion h
    | ok oe =>
      rw [hg] at h
      cases oe with
      | none =>
        injection h with h'
        subst h'
        exact hg
      | some e =>
        have hv := ops.apply_version a e
        refine ih (ops.apply a e) r ?_ h
        rw [hv]; omega

theorem update_aggregate_post (ops : AggregateOps A Ev)
    (st : DiskKeyStore A Ev Cmd) (id : String) (a r : A)
    (h : update_aggregate ops st id a = .ok r) :
    get_event st id (ops.version r) =
      (.ok none : Except KeyStoreError (Option Ev)) :=
  replay_post ops st id _ a r (by omega) h

theorem update_aggregate_congr (ops : AggregateOps A Ev)
    (st st' : DiskKeyStore A Ev Cmd) (id : String) (a : A)
    (hagree : ∀ v, ops.version a ≤ v →
      eventSlot st' id v = eventSlot st id v) :
    update_aggregate ops st' id a = update_aggregate ops st id a := by
  unfold update_aggregate
  have hb' : maxEventKey (dirFor st' id) ≤
      max (maxEventKey (dirFor st' id)) (maxEventKey (dirFor st id)) :=
    le_max_left _ _
  have hb : maxEventKey (dirFor st id) ≤
      max (maxEventKey (dirFor st' id)) (maxEventKey (dirFor st id)) :=
    le_max_right _ _
  have h1 := replay_fuel_eq ops st' id (maxEventKey (dirFor st' id) + 1)
    (max (maxEventKey (dirFor st' id)) (maxEventKey (dirFor st id)) + 1) a
    (by omega) (by omega)
  have h2 := replay_congr ops st st' id
    (max (maxEventKey (dirFor st' id)) (maxEventKey (dirFor st id)) + 1) a
    hagree
  have h3 := replay_fuel_eq ops st id
    (max (maxEventKey (dirFor st' id)) (maxEventKey (dirFor st id)) + 1)
    (maxEventKey (dirFor st id) + 1) a (by omega) (by omega)
  rw [h1, h2, h3]

theorem get_aggregate_of_base_some (ops : AggregateOps A Ev)
    (st : DiskKeyStore A Ev Cmd) (id : String) (a : A)
    (hb : aggregateBase ops st id = .ok (some a)) :
    get_aggregate ops st id = (update_aggregate ops st id a).map some := by
  unfold get_aggregate
  simp only [hb]
  cases hu : update_aggregate ops st id a <;> simp [hu, Except.map]

theorem get_aggregate_of_base_none (ops : AggregateOps A Ev)
    (st : DiskKeyStore A Ev Cmd) (id : String)
    (hb : aggregateBase ops st id = .ok none) :
    get_aggregate ops st id = .ok none := by
  unfold get_aggregate
  simp only [hb]

theorem get_aggregate_of_base_error (ops : AggregateOps A Ev)
    (st : DiskKeyStore A Ev Cmd) (id : String) (e : KeyStoreError)
    (hb : aggregateBase ops st id = .error e) :
    get_aggregate ops st id = .error e := by
  unfold get_aggregate
  simp only [hb]

/-! ## Claim theorems: aggregate reconstruction -/

/-- Claim C10: when the snapshot slot is present and parses, `get_aggregate`
never takes the init path — `InitError` cannot be raised — and its result
depends only on the snapshot and the event slots at versions at or above the
snapshot's own version, so events below that version (and the init event)
are never read or applied. -/
theorem snapshot_base_skips_init_and_old_events (ops : AggregateOps A Ev)
    (st st' : DiskKeyStore A Ev Cmd) (id : String) (a0 : A)
    (hsnap : snapshotSlot st id = some (.parsed a0)) :
    get_aggregate ops st id ≠ .error .InitError ∧
    (snapshotSlot st' id = some (.parsed a0) →
      (∀ v, ops.version a0 ≤ v → eventSlot st' id v = eventSlot st id v) →
      get_aggregate ops st' id = get_aggregate ops st id) := by
  have hbase : aggregateBase ops st id = .ok (some a0) := by
    unfold aggregateBase
    simp only [hsnap, genericGet]
  constructor
  · intro h
    rw [get_aggregate_of_base_some ops st id a0 hbase] at h
    cases hu : update_aggregate ops st id a0 with
    | error e =>
      rw [hu] at h
      simp only [Except.map, Except.error.injEq] at h
      have hj := replay_error_json ops st id _ a0 e hu
      rw [h] at hj
      exact KeyStoreError.noConfusion hj
    | ok r =>
      rw [hu] at h
      simp [Except.map] at h
  · intro hsnap' hagree
    have hbase' : aggregateBase ops st' id = .ok (some a0) := by
      unfold aggregateBase
      simp only [hsnap', genericGet]
    have hu := update_aggregate_congr ops st st' id a0 hagree
    rw [get_aggregate_of_base_some ops st id a0 hbase,
      get_aggregate_of_base_some ops st' id a0 hbase', hu]

theorem snapshot_base_skips_init_and_old_events_witness :
    get_aggregate opsN stC10a "h" ≠ .error .InitError ∧
    get_aggregate opsN stC10b "h" = get_aggregate opsN stC10a "h" :=
  ⟨(snapshot_base_skips_init_and_old_events opsN stC10a stC10b "h" 1 rfl).1,
   (snapshot_base_skips_init_and_old_events opsN stC10a stC10b "h" 1 rfl).2
     rfl (fun _ _ => rfl)⟩

/-- Claim C2 (amended): `get_aggregate` takes a parsed snapshot as the base;
otherwise, a parsed init event whose `init` is rejected fails with
`InitError`, and a missing init event yields `None`.  From the base, events
are fetched at the aggregate's current version and applied until `get_event`
returns `None` — witnessed by the returned aggregate having no stored event
at its version.  With events stored at versions 0, 1, 2 and a corrupt
snapshot, the returned aggregate has applied all three events, reaching
version 3 (not 2: the spec's aggregate contract starts at version 0 after
init and increments per apply, and replay fetches at the current version). -/
theorem get_aggregate_reconstruction (ops : AggregateOps A Ev)
    (st : DiskKeyStore A Ev Cmd) (id : String) (a0 : A) (e0 : Ev) (r : A) :
    (snapshotSlot st id = some (.parsed a0) →
      get_aggregate ops st id = (update_aggregate ops st id a0).map some) ∧
    (genericGet (snapshotSlot st id) = .ok none →
      eventSlot st id 0 = some (.parsed e0) → ops.init e0 = none →
      get_aggregate ops st id = .error .InitError) ∧
    (genericGet (snapshotSlot st id) = .ok none → eventSlot st id 0 = none →
      get_aggregate ops st id = .ok none) ∧
    (get_aggregate ops st id = .ok (some r) →
      get_event st id (ops.version r) =
        (.ok none : Except KeyStoreError (Option Ev))) ∧
    get_aggregate opsN stS3 "ca-1" = .ok (some 3) := by
  refine ⟨?_, ?_, ?_, ?_, rfl⟩
  · intro hsnap
    have hbase : aggregateBase ops st id = .ok (some a0) := by
      unfold aggregateBase
      simp only [hsnap, genericGet]
    exact get_aggregate_of_base_some ops st id a0 hbase
  · intro h1 h2 h3
    have hge : get_event st id 0 =
        (.ok (some e0) : Except KeyStoreError (Option Ev)) := by
      unfold get_event
      rw [h2]
    have hbase : aggregateBase ops st id = .error .InitError := by
      unfold aggregateBase
      simp only [h1, hge, h3]
    exact get_aggregate_of_base_error ops st id _ hbase
  · intro h1 h2
    have hge : get_event st id 0 =
        (.ok none : Except KeyStoreError (Option Ev)) := by
      unfold get_event
      rw [h2]
    have hbase : aggregateBase ops st id = .ok none := by
      unfold aggregateBase
      simp only [h1, hge]
    exact get_aggregate_of_base_none ops st id hbase
  · intro h
    cases hbase : aggregateBase ops st id with
    | error e =>
      rw [get_aggregate_of_base_error ops st id e hbase] at h
      exact Except.noConfusion h
    | ok os =>
      cases os with
      | none =>
        rw [get_aggregate_of_base_none ops st id hbase] at h
        injection h with h'
        exact Option.noConfusion h'
      | some a =>
        rw [get_aggregate_of_base_some ops st id a hbase] at h
        cases hu : update_aggregate ops st id a with
        | error e =>
          rw [hu] at h
          simp [Except.map] at h
        | ok r' =>
          rw [hu] at h
          simp only [Except.map, Except.ok.injEq, Option.some.injEq] at h
          subst h
          exact update_aggregate_post ops st id a _ hu

theorem get_aggregate_reconstruction_witness :
    get_aggregate opsRej stRej "ca-1" = .error .InitError :=
  (get_aggregate_reconstruction opsRej stRej "ca-1" 0 100 0).2.1 rfl rfl rfl

/-- Claim C2, as stated, is false at the concrete input it gives: with
events stored at versions 0, 1, 2 and a corrupt snapshot, `get_aggregate`
returns the aggregate `3`, whose `version()` is 3, not 2. -/
theorem get_aggregate_version_two_counterexample :
    get_aggregate opsN stS3 "ca-1" = .ok (some 3) ∧
    opsN.version 3 = 3 ∧ (3 : ℕ) ≠ 2 :=
  ⟨rfl, rfl, by decide⟩

/-! ## Command-collection lemmas -/

theorem collect_error_notfound (st : DiskKeyStore A Ev Cmd) (id : String)
    {Rec : Type} (conv : Cmd → Rec) (crit : CommandHistoryCriteria Rec) :
    ∀ (n : ℕ) (err : KeyStoreError),
      collectCommands st id conv crit n = .error err →
      err = .CommandNotFound := by
  intro n
  induction n with
  | zero => intro err h; exact Except.noConfusion h
  | succ m ih =>
    intro err h
    unfold collectCommands at h
    cases hc : collectCommands st id conv crit m with
    | error e =>
      rw [hc] at h
      injection h with h'
      exact h' ▸ ih e hc
    | ok pre =>
      rw [hc] at h
      cases hs : commandSlot st id (m + 1) with
      | none =>
        simp only [hs, genericGet, Except.error.injEq] at h
        exact h.symm
      | some s =>
        cases s with
        | corrupt =>
          simp only [hs, genericGet, Except.error.injEq] at h
          exact h.symm
        | parsed c =>
          simp only [hs, genericGet] at h
          by_cases hin : crit.should_include (conv c) <;> simp [hin] at h

theorem collect_err_of_read_none (st : DiskKeyStore A Ev Cmd) (id : String)
    {Rec : Type} (conv : Cmd → Rec) (crit : CommandHistoryCriteria Rec)
    (seq : ℕ) (h1 : 1 ≤ seq)
    (hread : genericGet (commandSlot st id seq) =
      (.ok none : Except KeyStoreError (Option Cmd))) :
    ∀ n, seq ≤ n →
      collectCommands st id conv crit n = .error .CommandNotFound := by
  intro n
  induction n with
  | zero => intro hle; omega
  | succ m ih =>
    intro hle
    unfold collectCommands
    by_cases hm : seq ≤ m
    · rw [ih hm]
    · have hseq : seq = m + 1 := by omega
      subst hseq
      cases hc : collectCommands st id conv crit m with
      | error e =>
        have he := collect_error_notfound st id conv crit m e hc
        subst he
        rfl
      | ok pre =>
        rw [hread]

theorem collect_ok_of_all (st : DiskKeyStore A Ev Cmd) (id : String)
    {Rec : Type} (conv : Cmd → Rec) (crit : CommandHistoryCriteria Rec)
    (cmds : ℕ → Cmd) :
    ∀ n,
      (∀ s, 1 ≤ s → s ≤ n →
        commandSlot st id s = some (.parsed (cmds s))) →
      collectCommands st id conv crit n =
        .ok (filteredRecords conv crit cmds n) := by
  intro n
  induction n with
  | zero => intro _; simp [collectCommands, filteredRecords]
  | succ m ih =>
    intro hall
    have hm := ih fun s hs1 hs2 => hall s hs1 (by omega)
    unfold collectCommands
    rw [hm, hall (m + 1) (by omega) (le_refl _)]
    simp only [genericGet, filteredRecords, List.range_succ, List.map_append,
      List.filter_append]
    by_cases hin : crit.should_include (conv (cmds (m + 1))) <;>
      simp [hin]

/-! ## Claim theorems: command history -/

/-- Claim C4: `command_history` iterates sequences `1..=last_command` from
the stored info, fails `CommandNotFound` when a required command slot is
absent, takes `total` to be the filtered count before pagination, fails
`CommandOffSetError` whenever `offset ≥ total` (hence whenever the filtered
set is empty, even at offset 0), then drops `offset` records and truncates
to `rows` when set and strictly below the remaining count. -/
theorem command_history_spec (st : DiskKeyStore A Ev Cmd) (id : String)
    {Rec : Type} (conv : Cmd → Rec) (crit : CommandHistoryCriteria Rec)
    (cmds : ℕ → Cmd) (seq : ℕ) :
    ((∀ s, 1 ≤ s → s ≤ (get_info st id).last_command →
        commandSlot st id s = some (.parsed (cmds s))) →
      command_history st id conv crit =
        (if (filteredRecords conv crit cmds
              (get_info st id).last_command).length ≤ crit.offset then
          .error .CommandOffSetError
        else
          .ok ⟨crit.offset,
            (filteredRecords conv crit cmds
              (get_info st id).last_command).length,
            truncateRows
              ((filteredRecords conv crit cmds
                (get_info st id).last_command).drop crit.offset)
              crit.rows⟩)) ∧
    (1 ≤ seq → seq ≤ (get_info st id).last_command →
      commandSlot st id seq = none →
      command_history st id conv crit = .error .CommandNotFound) := by
  constructor
  · intro hall
    have hc := collect_ok_of_all st id conv crit cmds
      (get_info st id).last_command hall
    unfold command_history
    rw [hc]
  · intro h1 h2 hnone
    have hread : genericGet (commandSlot st id seq) =
        (.ok none : Except KeyStoreError (Option Cmd)) := by
      rw [hnone]
      rfl
    have hcol := collect_err_of_read_none st id conv crit seq h1 hread
      (get_info st id).last_command h2
    unfold command_history
    rw [hcol]

theorem command_history_spec_witness :
    command_history stS4 "ca-1" idConv critOffset10 =
      .error .CommandOffSetError := by
  have hall : ∀ s, 1 ≤ s → s ≤ (get_info stS4 "ca-1").last_command →
      commandSlot stS4 "ca-1" s = some (.parsed (cmdsS4 s)) := by
    intro s hs1 hs2
    have hs2' : s ≤ 5 := hs2
    clear hs2
    interval_cases s <;> rfl
  have h := (command_history_spec stS4 "ca-1" idConv critOffset10 cmdsS4
    1).1 hall
  rw [h]
  rfl

/-! ## Claim theorems: lenient versus strict reads -/

/-- Claim C5 (amended): the lenient generic `get` is the silent-recovery
path for every slot it reads — snapshot, info, and command slots alike: a
present-but-unparseable slot reads as `None` (info then defaults, and a
corrupt command surfaces `CommandNotFound` from `command_history`, not
`JsonError`).  Only `get_event` and `get_version` are strict: a
present-but-unparseable event or version record is `JsonError`, and
`get_event` returning `None` means the slot is absent (end of log). -/
theorem lenient_and_strict_reads {β : Type} (s : Option (Slot β)) (x : β)
    (err : KeyStoreError) (st : DiskKeyStore A Ev Cmd) (id : String)
    (v : ℕ) {Rec : Type} (conv : Cmd → Rec)
    (crit : CommandHistoryCriteria Rec) :
    (genericGet (some (Slot.corrupt : Slot β)) = .ok none ∧
      genericGet (none : Option (Slot β)) = .ok none ∧
      genericGet (some (.parsed x)) = .ok (some x) ∧
      genericGet s ≠ .error err) ∧
    (eventSlot st id v = some .corrupt →
      get_event st id v =
        (.error .JsonError : Except KeyStoreError (Option Ev))) ∧
    (get_event st id v = (.ok none : Except KeyStoreError (Option Ev)) ↔
      eventSlot st id v = none) ∧
    (st.root_exists = true → st.version_file = some .corrupt →
      get_version st = .error .JsonError) ∧
    (infoSlot st id = some .corrupt →
      get_info st id = StoredValueInfo.default) ∧
    (commandSlot st id 1 = some .corrupt →
      1 ≤ (get_info st id).last_command →
      command_history st id conv crit = .error .CommandNotFound) := by
  refine ⟨⟨rfl, rfl, rfl, ?_⟩, ?_, ⟨?_, ?_⟩, ?_, ?_, ?_⟩
  · intro hcon
    cases s with
    | none => exact Except.noConfusion hcon
    | some sl =>
      cases sl with
      | parsed y => exact Except.noConfusion hcon
      | corrupt => exact Except.noConfusion hcon
  · intro hs
    unfold get_event
    rw [hs]
  · intro hg
    cases hs : eventSlot st id v with
    | none => rfl
    | some sl =>
      unfold get_event at hg
      rw [hs] at hg
      cases sl with
      | parsed e =>
        injection hg with hg'
        exact Option.noConfusion hg'
      | corrupt => exact Except.noConfusion hg
  · intro hs
    unfold get_event
    rw [hs]
  · intro hr hv
    simp [get_version, hr, hv]
  · intro hi
    unfold get_info
    rw [hi]
    rfl
  · intro hcorrupt hlc
    have hread : genericGet (commandSlot st id 1) =
        (.ok none : Except KeyStoreError (Option Cmd)) := by
      rw [hcorrupt]
      rfl
    have hcol := collect_err_of_read_none st id conv crit 1 (le_refl 1)
      hread (get_info st id).last_command hlc
    unfold command_history
    rw [hcol]

theorem lenient_and_strict_reads_witness :
    get_info stC5 "h1" = StoredValueInfo.default ∧
    command_history stC5 "h2" idConv critAll = .error .CommandNotFound :=
  ⟨(lenient_and_strict_reads (β := ℕ) none 0 .JsonError stC5 "h1" 0 idConv
      critAll).2.2.2.2.1 rfl,
   (lenient_and_strict_reads (β := ℕ) none 0 .JsonError stC5 "h2" 0 idConv
      critAll).2.2.2.2.2 rfl (by decide)⟩

/-- Claim C5, as stated, is false at a concrete input: a present but
unparseable `info.json` is read through the lenient generic `get`, which
yields `None` (so `get_info` silently returns the default info), and a
present but unparseable command slot makes `command_history` fail with
`CommandNotFound` — neither read surfaces a `JsonError`. -/
theorem lenient_reads_counterexample :
    genericGet (infoSlot stC5 "h1") = .ok none ∧
    get_info stC5 "h1" = StoredValueInfo.default ∧
    command_history stC5 "h2" idConv critAll = .error .CommandNotFound ∧
    KeyStoreError.CommandNotFound ≠ .JsonError :=
  ⟨rfl, rfl, rfl, by decide⟩

end Krill
